import Mathlib

/-!
Verification development for the `mcp_simple_chatbot` conversation engine.

The Python source is embedded shallowly: strings are `List Char`, the
`re`-based channel parsing of `ChatSession._parse_llm_response` is embedded
as explicit leftmost/lazy scanning functions that mirror the exact regexes
of the source, `json.loads` / `json.dumps` / Python `repr` are embedded as
executable functions over an inductive `Json` type, and the stateful parts
(`ChatSession._process_conversation_turn`, the background tool task
`_execute_tool_and_queue_result`, `CommandHandler`, `LLMClient.get_response`)
become explicit state-passing functions.  All embeddings cover the ASCII
fragment the program manipulates.
-/

/-- Python whitespace for `str.strip` / `str.split` (ASCII fragment:
space, tab, newline, carriage return, vertical tab, form feed). -/
def isPySpace (c : Char) : Bool :=
  c = ' ' || c = '\t' || c = '\n' || c = '\r' || c = Char.ofNat 11 || c = Char.ofNat 12

/-- Drop trailing characters satisfying `p` (helper for `pyStrip`). -/
def dropTrailing (p : Char → Bool) (l : List Char) : List Char :=
  ((l.reverse).dropWhile p).reverse

/-- Embedding of Python `str.strip()` (ASCII whitespace fragment). -/
def pyStrip (l : List Char) : List Char :=
  dropTrailing isPySpace (l.dropWhile isPySpace)

/-- Embedding of Python `str.lower()` (ASCII fragment). -/
def pyLower (l : List Char) : List Char :=
  l.map Char.toLower

/-- Accumulator loop for `pySplit`: `acc` holds the current word reversed. -/
def pySplitGo : List Char → List Char → List (List Char)
  | [], acc => if acc = [] then [] else [acc.reverse]
  | c :: rest, acc =>
    if isPySpace c then
      if acc = [] then pySplitGo rest [] else acc.reverse :: pySplitGo rest []
    else pySplitGo rest (c :: acc)

/-- Embedding of Python `str.split()` with no separator: split on runs of
whitespace, ignoring leading and trailing whitespace. -/
def pySplit (l : List Char) : List (List Char) :=
  pySplitGo l []

/-- Decimal digits of a natural number (most significant first). -/
def natDigits (n : Nat) : List Char :=
  (Nat.toDigits 10 n)

/-- Decimal rendering of an integer, as Python `str`/`repr` renders `int`. -/
def intChars (n : Int) : List Char :=
  if n < 0 then '-' :: natDigits n.natAbs else natDigits n.natAbs

/-- Lower-case hex digit. -/
def hexDigit (n : Nat) : Char :=
  if n < 10 then Char.ofNat (48 + n) else Char.ofNat (87 + (n - 10))

/-- Four-digit lower-case hex rendering, as in `\uXXXX` escapes. -/
def hex4 (n : Nat) : List Char :=
  [hexDigit (n / 4096 % 16), hexDigit (n / 256 % 16), hexDigit (n / 16 % 16), hexDigit (n % 16)]

/-- Two-digit lower-case hex rendering, as in `\xXX` escapes. -/
def hex2 (n : Nat) : List Char :=
  [hexDigit (n / 16 % 16), hexDigit (n % 16)]

/-! ## JSON values

Shallow embedding of the Python `json` module as the source uses it:
`json.loads` on tool-argument bodies, `json.dumps` on tool-result payloads.
Numbers keep the grammar structure (`jint` for integral tokens, `jfloat`
for tokens with a fraction or exponent, kept as raw digit components so no
floating-point semantics is introduced); `jnan`/`jinf` cover the
`NaN`/`Infinity` constants Python accepts. -/

inductive Json where
  | jnull : Json
  | jbool (b : Bool) : Json
  | jint (n : Int) : Json
  | jfloat (neg : Bool) (ip fp : List Char) (eneg : Bool) (ep : List Char) : Json
  | jinf (neg : Bool) : Json
  | jnan : Json
  | jstr (s : List Char) : Json
  | jarr (xs : List Json) : Json
  | jobj (kvs : List (List Char × Json)) : Json

/-- JSON whitespace skipped between tokens (exactly the four characters of
Python json's `_w` pattern). -/
def skipJsonWs (l : List Char) : List Char :=
  l.dropWhile (fun c => c = ' ' || c = '\t' || c = '\n' || c = '\r')

/-- Is `c` an ASCII decimal digit. -/
def isDigitC (c : Char) : Bool :=
  '0' ≤ c && c ≤ '9'

/-- Digit value of an ASCII hex digit, if it is one. -/
def hexVal (c : Char) : Option Nat :=
  if '0' ≤ c && c ≤ '9' then some (c.toNat - 48)
  else if 'a' ≤ c && c ≤ 'f' then some (c.toNat - 87)
  else if 'A' ≤ c && c ≤ 'F' then some (c.toNat - 55)
  else none

/-- Nat value of a list of decimal digit characters (most significant first). -/
def digitsToNat (l : List Char) : Nat :=
  l.foldl (fun acc c => acc * 10 + (c.toNat - 48)) 0

/-- Parse `\uXXXX`: four hex digits to a code unit. -/
def parseHex4 : List Char → Option (Nat × List Char)
  | a :: b :: c :: d :: rest =>
    match hexVal a, hexVal b, hexVal c, hexVal d with
    | some x, some y, some z, some w => some (x * 4096 + y * 256 + z * 16 + w, rest)
    | _, _, _, _ => none
  | _ => none

/-- String-body scanner modelling Python json `py_scanstring` (strict mode):
called after the opening quote; returns characters up to the closing quote.
Surrogate pairs in `\u` escapes are combined; a code that is not a Unicode
scalar value degrades through `Char.ofNat`s default.  `fuel` bounds the
recursion; `jsonLoads` supplies enough for the whole input. -/
def scanJsonString : Nat → List Char → Option (List Char × List Char)
  | 0, _ => none
  | _, [] => none
  | fuel + 1, c :: rest =>
    if c = '"' then some ([], rest)
    else if c.toNat < 32 then none
    else if c = '\\' then
      match rest with
      | [] => none
      | e :: rest2 =>
        let simple : Option Char :=
          if e = '"' then some '"'
          else if e = '\\' then some '\\'
          else if e = '/' then some '/'
          else if e = 'b' then some (Char.ofNat 8)
          else if e = 'f' then some (Char.ofNat 12)
          else if e = 'n' then some '\n'
          else if e = 'r' then some '\r'
          else if e = 't' then some '\t'
          else none
        match simple with
        | some d =>
          match scanJsonString fuel rest2 with
          | some (s, rem) => some (d :: s, rem)
          | none => none
        | none =>
          if e = 'u' then
            match parseHex4 rest2 with
            | none => none
            | some (n, rest3) =>
              if 0xd800 ≤ n ∧ n ≤ 0xdbff then
                match rest3 with
                | '\\' :: 'u' :: rest4 =>
                  match parseHex4 rest4 with
                  | some (m, rest5) =>
                    if 0xdc00 ≤ m ∧ m ≤ 0xdfff then
                      match scanJsonString fuel rest5 with
                      | some (s, rem) =>
                        some (Char.ofNat (0x10000 + (n - 0xd800) * 0x400 + (m - 0xdc00)) :: s, rem)
                      | none => none
                    else
                      match scanJsonString fuel rest3 with
                      | some (s, rem) => some (Char.ofNat n :: s, rem)
                      | none => none
                  | none =>
                    match scanJsonString fuel rest3 with
                    | some (s, rem) => some (Char.ofNat n :: s, rem)
                    | none => none
                | _ =>
                  match scanJsonString fuel rest3 with
                  | some (s, rem) => some (Char.ofNat n :: s, rem)
                  | none => none
              else
                match scanJsonString fuel rest3 with
                | some (s, rem) => some (Char.ofNat n :: s, rem)
                | none => none
          else none
    else
      match scanJsonString fuel rest with
      | some (s, rem) => some (c :: s, rem)
      | none => none

/-- Greedy digit run (helper for the number grammar). -/
def takeDigits (l : List Char) : List Char × List Char :=
  (l.takeWhile isDigitC, l.dropWhile isDigitC)

/-- Number token per Python json's `NUMBER_RE`
`(-?(?:0|[1-9]\d*))(\.\d+)?([eE][-+]?\d+)?`: an integral token becomes
`jint` (Python `int`), a token with fraction or exponent becomes `jfloat`
(Python `float`), kept as its digit components. -/
def parseJsonNumber (l : List Char) : Option (Json × List Char) :=
  let (neg, l1) := match l with
    | '-' :: rest => (true, rest)
    | _ => (false, l)
  match l1 with
  | c :: rest =>
    if c = '0' ∨ (isDigitC c ∧ c ≠ '0') then
      let (ip, l2) :=
        if c = '0' then ([c], rest)
        else (c :: (rest.takeWhile isDigitC), rest.dropWhile isDigitC)
      let (fp, l3) := match l2 with
        | '.' :: r =>
          let (ds, r2) := takeDigits r
          if ds = [] then (([] : List Char), l2) else (ds, r2)
        | _ => ([], l2)
      let (eneg, ep, l4) := match l3 with
        | e :: r =>
          if e = 'e' ∨ e = 'E' then
            let (es, r2) := match r with
              | '-' :: r3 => (true, r3)
              | '+' :: r3 => (false, r3)
              | _ => (false, r)
            let (ds, r4) := takeDigits r2
            if ds = [] then (false, ([] : List Char), l3) else (es, ds, r4)
          else (false, [], l3)
        | _ => (false, [], l3)
      if fp = [] ∧ ep = [] then
        some (Json.jint (if neg then -(digitsToNat ip : Int) else (digitsToNat ip : Int)), l2)
      else some (Json.jfloat neg ip fp eneg ep, l4)
    else none
  | [] => none

/-- Insert or overwrite a key in an object, as Python `dict` assignment does
(existing keys keep their position, the value is replaced). -/
def insertKV (kvs : List (List Char × Json)) (key : List Char) (v : Json) :
    List (List Char × Json) :=
  match kvs with
  | [] => [(key, v)]
  | (k, w) :: rest => if k = key then (k, v) :: rest else (k, w) :: insertKV rest key v

mutual

/-- One JSON value, the way Python json's `_scan_once` consumes one: the
input starts at a token (callers skip whitespace).  Returns the value and
the unconsumed remainder. -/
def scanOnce : Nat → List Char → Option (Json × List Char)
  | 0, _ => none
  | fuel + 1, l =>
    match l with
    | '"' :: rest =>
      match scanJsonString (fuel + 1) rest with
      | some (s, rem) => some (Json.jstr s, rem)
      | none => none
    | '{' :: rest => parseJsonObj fuel rest
    | '[' :: rest => parseJsonArr fuel rest
    | 'n' :: 'u' :: 'l' :: 'l' :: rest => some (Json.jnull, rest)
    | 't' :: 'r' :: 'u' :: 'e' :: rest => some (Json.jbool true, rest)
    | 'f' :: 'a' :: 'l' :: 's' :: 'e' :: rest => some (Json.jbool false, rest)
    | _ =>
      match parseJsonNumber l with
      | some r => some r
      | none =>
        match l with
        | 'N' :: 'a' :: 'N' :: rest => some (Json.jnan, rest)
        | 'I' :: 'n' :: 'f' :: 'i' :: 'n' :: 'i' :: 't' :: 'y' :: rest =>
          some (Json.jinf false, rest)
        | '-' :: 'I' :: 'n' :: 'f' :: 'i' :: 'n' :: 'i' :: 't' :: 'y' :: rest =>
          some (Json.jinf true, rest)
        | _ => none

/-- Object body after the opening brace, as Python json's `JSONObject`. -/
def parseJsonObj : Nat → List Char → Option (Json × List Char)
  | 0, _ => none
  | fuel + 1, l =>
    match skipJsonWs l with
    | '}' :: rem => some (Json.jobj [], rem)
    | '"' :: r2 => parseJsonMembers fuel r2 []
    | _ => none

/-- Members loop of an object: entered with the input just after a key's
opening quote; `acc` holds the members read so far. -/
def parseJsonMembers : Nat → List Char → List (List Char × Json) →
    Option (Json × List Char)
  | 0, _, _ => none
  | fuel + 1, l, acc =>
    match scanJsonString (fuel + 1) l with
    | none => none
    | some (key, r1) =>
      match skipJsonWs r1 with
      | ':' :: r2 =>
        match scanOnce fuel (skipJsonWs r2) with
        | none => none
        | some (v, r3) =>
          let acc2 := insertKV acc key v
          match skipJsonWs r3 with
          | ',' :: r4 =>
            match skipJsonWs r4 with
            | '"' :: r5 => parseJsonMembers fuel r5 acc2
            | _ => none
          | '}' :: rem => some (Json.jobj acc2, rem)
          | _ => none
      | _ => none

/-- Array body after the opening bracket, as Python json's `JSONArray`. -/
def parseJsonArr : Nat → List Char → Option (Json × List Char)
  | 0, _ => none
  | fuel + 1, l =>
    match skipJsonWs l with
    | ']' :: rem => some (Json.jarr [], rem)
    | r => parseJsonElems fuel r []

/-- Elements loop of an array; `acc` holds the elements read so far,
reversed. -/
def parseJsonElems : Nat → List Char → List Json → Option (Json × List Char)
  | 0, _, _ => none
  | fuel + 1, l, acc =>
    match scanOnce fuel l with
    | none => none
    | some (v, r1) =>
      match skipJsonWs r1 with
      | ',' :: r2 => parseJsonElems fuel (skipJsonWs r2) (v :: acc)
      | ']' :: rem => some (Json.jarr (v :: acc).reverse, rem)
      | _ => none

end

/-- Embedding of `json.loads`: decode one value with surrounding whitespace;
anything left over is the "Extra data" error, i.e. `none`. -/
def jsonLoads (l : List Char) : Option Json :=
  match scanOnce (2 * l.length + 8) (skipJsonWs l) with
  | none => none
  | some (v, rem) => if skipJsonWs rem = [] then some v else none

/-- Escape one character as `json.dumps` (default `ensure_ascii=True`) does
inside a string literal. -/
def jsonEscapeChar (c : Char) : List Char :=
  if c = '"' then ['\\', '"']
  else if c = '\\' then ['\\', '\\']
  else if c = '\n' then ['\\', 'n']
  else if c = '\r' then ['\\', 'r']
  else if c = '\t' then ['\\', 't']
  else if c = Char.ofNat 8 then ['\\', 'b']
  else if c = Char.ofNat 12 then ['\\', 'f']
  else if c.toNat < 32 ∨ c.toNat ≥ 127 then
    if c.toNat ≤ 0xffff then '\\' :: 'u' :: hex4 c.toNat
    else
      let v := c.toNat - 0x10000
      ('\\' :: 'u' :: hex4 (0xd800 + v / 0x400)) ++ ('\\' :: 'u' :: hex4 (0xdc00 + v % 0x400))
  else [c]

/-- A `json.dumps` string literal: quoted, escaped. -/
def jsonDumpStr (s : List Char) : List Char :=
  '"' :: (s.flatMap jsonEscapeChar) ++ ['"']

mutual

/-- Embedding of `json.dumps` with its defaults (separators `", "` and
`": "`, `ensure_ascii=True`).  `jfloat` renders its raw token components;
the source never dumps a float and no claim exercises that corner. -/
def jsonDumps : Json → List Char
  | Json.jnull => "null".data
  | Json.jbool true => "true".data
  | Json.jbool false => "false".data
  | Json.jint n => intChars n
  | Json.jfloat neg ip fp eneg ep =>
    (if neg then ['-'] else []) ++ ip ++
      (if fp = [] then [] else '.' :: fp) ++
      (if ep = [] then [] else 'e' :: ((if eneg then ['-'] else []) ++ ep))
  | Json.jinf false => "Infinity".data
  | Json.jinf true => "-Infinity".data
  | Json.jnan => "NaN".data
  | Json.jstr s => jsonDumpStr s
  | Json.jarr xs => '[' :: jsonDumpsElems xs ++ [']']
  | Json.jobj kvs => '{' :: jsonDumpsMembers kvs ++ ['}']

/-- Array elements joined by `", "`. -/
def jsonDumpsElems : List Json → List Char
  | [] => []
  | [x] => jsonDumps x
  | x :: y :: rest => jsonDumps x ++ ',' :: ' ' :: jsonDumpsElems (y :: rest)

/-- Object members `"key": value` joined by `", "`. -/
def jsonDumpsMembers : List (List Char × Json) → List Char
  | [] => []
  | [(k, v)] => jsonDumpStr k ++ ':' :: ' ' :: jsonDumps v
  | (k, v) :: m :: rest =>
    jsonDumpStr k ++ ':' :: ' ' :: jsonDumps v ++ ',' :: ' ' :: jsonDumpsMembers (m :: rest)

end

/-- Escape one character of a Python string `repr` with quote `q`
(ASCII fragment: backslash, the quote itself, newline, carriage return,
tab, then `\xXX` for other non-printables). -/
def pyReprEscapeChar (q : Char) (c : Char) : List Char :=
  if c = '\\' then ['\\', '\\']
  else if c = q then ['\\', q]
  else if c = '\n' then ['\\', 'n']
  else if c = '\r' then ['\\', 'r']
  else if c = '\t' then ['\\', 't']
  else if c.toNat < 32 ∨ c.toNat = 127 then '\\' :: 'x' :: hex2 c.toNat
  else [c]

/-- Python `repr` of a string (ASCII fragment): single quotes, unless the
text holds a single quote and no double quote. -/
def pyReprStr (s : List Char) : List Char :=
  let q : Char := if (Char.ofNat 39) ∈ s ∧ ¬('"' ∈ s) then '"' else Char.ofNat 39
  q :: (s.flatMap (pyReprEscapeChar q)) ++ [q]

mutual

/-- Python `repr`/`str` of a value decoded by `json.loads`, as the engine
f-string `f"... with arguments: `{...}`"` renders the arguments: dicts with
`{'key': value}` syntax, `True`/`False`/`None`, `inf`/`nan` for the float
constants.  `jfloat` renders its raw token components (unexercised). -/
def pyRepr : Json → List Char
  | Json.jnull => "None".data
  | Json.jbool true => "True".data
  | Json.jbool false => "False".data
  | Json.jint n => intChars n
  | Json.jfloat neg ip fp eneg ep =>
    (if neg then ['-'] else []) ++ ip ++
      (if fp = [] then [] else '.' :: fp) ++
      (if ep = [] then [] else 'e' :: ((if eneg then ['-'] else []) ++ ep))
  | Json.jinf false => "inf".data
  | Json.jinf true => "-inf".data
  | Json.jnan => "nan".data
  | Json.jstr s => pyReprStr s
  | Json.jarr xs => '[' :: pyReprElems xs ++ [']']
  | Json.jobj kvs => '{' :: pyReprMembers kvs ++ ['}']

/-- List elements joined by `", "`. -/
def pyReprElems : List Json → List Char
  | [] => []
  | [x] => pyRepr x
  | x :: y :: rest => pyRepr x ++ ',' :: ' ' :: pyReprElems (y :: rest)

/-- Dict members `'key': value` joined by `", "`. -/
def pyReprMembers : List (List Char × Json) → List Char
  | [] => []
  | [(k, v)] => pyReprStr k ++ ':' :: ' ' :: pyRepr v
  | (k, v) :: m :: rest =>
    pyReprStr k ++ ':' :: ' ' :: pyRepr v ++ ',' :: ' ' :: pyReprMembers (m :: rest)

end

/-! ## Channel parsing (`ChatSession._parse_llm_response`)

The source finds channels with three `re.search` calls in `re.DOTALL` mode.
Each pattern is a literal marker followed by a lazy body
`(.*?)(?=<\||$)`: the body is the shortest run after the leftmost marker
occurrence that ends at `<|` or at an end-of-string position (`$` also
matches just before one trailing newline).  The tool-call pattern
`<\|channel\|>commentary to=(?:functions\.)?(.*?) ?json<\|message\|>` adds
a greedy optional `functions.` namespace, a lazy name capture, and a greedy
optional space, embedded below with exactly that backtracking preference. -/

/-- Characters a lazy body `(.*?)(?=<\||$)` captures from this suffix of
the input: everything up to the first `<|` or end position (a position
before one trailing newline also satisfies `$`). -/
def bodyLen : List Char → Nat
  | [] => 0
  | '<' :: '|' :: _ => 0
  | ['\n'] => 0
  | _ :: rest => 1 + bodyLen rest

/-- The captured lazy body at this suffix. -/
def captureBody (l : List Char) : List Char :=
  l.take (bodyLen l)

/-- `re.search` of `marker(.*?)(?=<\||$)` with a nonempty literal marker:
body of the leftmost marker occurrence (such a match never fails once the
marker occurs, since `$` matches at end of input). -/
def searchChannel (marker : List Char) : List Char → Option (List Char)
  | [] => none
  | c :: rest =>
    if marker.isPrefixOf (c :: rest) then
      some (captureBody ((c :: rest).drop marker.length))
    else searchChannel marker rest

/-- Marker of the `analysis` channel regex. -/
def analysisMarker : List Char := "<|channel|>analysis<|message|>".data

/-- Marker of the `final` channel regex. -/
def finalMarker : List Char := "<|channel|>final<|message|>".data

/-- Literal head of the tool-call regex. -/
def tcMarker : List Char := "<|channel|>commentary to=".data

/-- The optional namespace literal `functions.` of the tool-call regex. -/
def funcDot : List Char := "functions.".data

/-- The literal ` json<|message|>` tail (without its optional space). -/
def jsonLit : List Char := "json<|message|>".data

/-- Lazy scan for `(.*?) ?json<\|message\|>(.*?)(?=<\||$)` from a fixed
start: grow the name capture one character at a time; at each length first
try consuming a space before the literal (greedy ` ?`), then the literal
directly.  `acc` holds the name captured so far, reversed. -/
def grabToolRest : List Char → List Char → Option (List Char × List Char)
  | [], _ => none
  | c :: rest, acc =>
    if c = ' ' ∧ jsonLit.isPrefixOf rest then
      some (acc.reverse, captureBody (rest.drop jsonLit.length))
    else if jsonLit.isPrefixOf (c :: rest) then
      some (acc.reverse, captureBody ((c :: rest).drop jsonLit.length))
    else grabToolRest rest (c :: acc)

/-- `re.search` of the tool-call regex: leftmost occurrence of the literal
head from which the rest of the pattern matches, preferring the
`functions.`-consuming alternative (greedy optional group).  Returns the
name capture and the body capture. -/
def toolSearch : List Char → Option (List Char × List Char)
  | [] => none
  | c :: rest =>
    if tcMarker.isPrefixOf (c :: rest) then
      let after := (c :: rest).drop tcMarker.length
      let withNs :=
        if funcDot.isPrefixOf after then grabToolRest (after.drop funcDot.length) []
        else none
      match withNs with
      | some r => some r
      | none =>
        match grabToolRest after [] with
        | some r => some r
        | none => toolSearch rest
    else toolSearch rest

/-- `ToolCall` of `chat_session.py`: a tool name and its decoded arguments. -/
structure ToolCall where
  tool : List Char
  args : Json

/-- `LLMResponse` of `chat_session.py`. -/
structure LLMResponse where
  role : Option (List Char)
  thinking : Option (List Char)
  message : Option (List Char)
  tool_call : Option ToolCall
  commentary : Option (List Char)

/-- The fixed message installed when tool-call JSON fails to decode. -/
def malformedArgsMsg : List Char :=
  "Error: LLM provided malformed tool arguments. Please try rephrasing your request.".data

/-- Embedding of `ChatSession._parse_llm_response`: defaults role to
`assistant` and commentary to the whole raw response, then runs the
analysis, tool-call and final regexes in the source's order. -/
def parse_llm_response (l : List Char) : LLMResponse :=
  let r0 : LLMResponse := ⟨some "assistant".data, none, none, none, some l⟩
  let r1 := match searchChannel analysisMarker l with
    | some b => { r0 with thinking := some (pyStrip b) }
    | none => r0
  let r2 := match toolSearch l with
    | some (g1, g2) =>
      match jsonLoads (pyStrip g2) with
      | some args => { r1 with tool_call := some ⟨pyStrip g1, args⟩ }
      | none => { r1 with message := some malformedArgsMsg, tool_call := none }
    | none => r1
  match searchChannel finalMarker l with
  | some b => { r2 with message := some (pyStrip b) }
  | none => r2

/-! ## Tool scheduler (`_execute_tool_call`, `_execute_tool_and_queue_result`)

Tool providers (`core/server.py`, the MCP transport) are the external
collaborators: a provider is a tool listing plus an executor, each of which
can raise.  `_execute_tool_call` catches executor failures itself and
returns `None`; exceptions raised outside its inner `try` (the
`list_tools` lookup loop) propagate to `_execute_tool_and_queue_result`,
whose `except` converts them to an error `ToolResult`.  `Except` carries a
propagating Python exception, `Option` the caught `None` result. -/

/-- One entry of an MCP tool result's `content` list: `TextContent` or
anything else (which the source turns into a raised `ValueError`). -/
inductive ContentItem where
  | text (s : List Char)
  | nonText

/-- Outcome of `server.execute_tool`: a result object or a raised exception. -/
inductive ExecOutcome where
  | ok (content : List ContentItem)
  | exn (msg : List Char)

/-- Outcome of `server.list_tools`: tool names or a raised exception. -/
inductive ListToolsOutcome where
  | ok (names : List (List Char))
  | exn (msg : List Char)

/-- A registered tool provider, by its observable behaviour. -/
structure Server where
  listTools : ListToolsOutcome
  execTool : List Char → Json → ExecOutcome

/-- The lookup loop of `_execute_tool_call`: first server whose listing
contains the tool; a raising `list_tools` propagates. -/
def findToolServer : List Server → List Char → Except (List Char) (Option Server)
  | [], _ => .ok none
  | srv :: rest, tool =>
    match srv.listTools with
    | .exn m => .error m
    | .ok names => if tool ∈ names then .ok (some srv) else findToolServer rest tool

/-- Embedding of `ChatSession._execute_tool_call`: no provider found or any
failure inside the inner `try` (executor exception, empty content,
non-text content) yields `.ok none`; a `list_tools` exception propagates
as `.error`; a `TextContent` head yields its text. -/
def execute_tool_call (servers : List Server) (tc : ToolCall) :
    Except (List Char) (Option (List Char)) :=
  match findToolServer servers tc.tool with
  | .error m => .error m
  | .ok none => .ok none
  | .ok (some srv) =>
    match srv.execTool tc.tool tc.args with
    | .exn _ => .ok none
    | .ok [] => .ok none
    | .ok (ContentItem.text s :: _) => .ok (some s)
    | .ok (ContentItem.nonText :: _) => .ok none

/-- A queue item: user input or a `ToolResult` (task id, payload, tool
name).  The payload is the value later passed to `json.dumps` — the
executed tool's text on success, the `error`/`tool` dict on a converted
exception. -/
inductive QItem where
  | user (content : List Char)
  | toolRes (tool_id : List Char) (result : Json) (tool_name : List Char)

/-- Embedding of `ChatSession._execute_tool_and_queue_result` as its effect
on the input queue and the `running_tools` registry: a truthy (non-`None`,
nonempty) result is enqueued as a `ToolResult`; a `None` result enqueues
nothing; a propagated exception is converted to an error `ToolResult` and
enqueued; the `finally` block removes the bookkeeping entry in all cases. -/
def execute_tool_and_queue_result (servers : List Server) (tc : ToolCall)
    (task_id : List Char) (queue : List QItem) (running : List (List Char)) :
    List QItem × List (List Char) :=
  match execute_tool_call servers tc with
  | .ok (some s) =>
    (if s = [] then queue else queue ++ [QItem.toolRes task_id (Json.jstr s) tc.tool],
      running.erase task_id)
  | .ok none => (queue, running.erase task_id)
  | .error e =>
    (queue ++ [QItem.toolRes task_id
        (Json.jobj [("error".data, Json.jstr e), ("tool".data, Json.jstr tc.tool)]) tc.tool],
      running.erase task_id)

/-! ## Command handler (`core/command_handler.py`) -/

/-- `CommandHandler.is_command`: `message.strip().startswith("/")`. -/
def is_command (message : List Char) : Bool :=
  "/".data.isPrefixOf (pyStrip message)

/-- The `_show_help` response. -/
def helpText : List Char :=
  "Available commands:\n/debug - Toggle debug logging on/off\n/help - Show this help message".data

/-- Embedding of `CommandHandler.execute_command` with the handler's
`_debug_enabled` state threaded explicitly.  `command_parts[0]` on an
empty split (a bare `/`) raises `IndexError`, carried as `.error`. -/
def execute_command (dbg : Bool) (message : List Char) :
    Except (List Char) (List Char × Bool) :=
  match pySplit ((pyStrip message).drop 1) with
  | [] => .error "IndexError: list index out of range".data
  | name0 :: _ =>
    let name := pyLower name0
    if name = "debug".data then
      let newDbg := !dbg
      .ok ("Debug logging ".data ++
            (if newDbg then "enabled".data else "disabled".data) ++ ".".data, newDbg)
    else if name = "help".data then .ok (helpText, dbg)
    else .ok ("Unknown command: /".data ++ name ++ ". Type /help for available commands.".data, dbg)

/-! ## Conversation engine (`_process_conversation_turn`) -/

/-- A conversation history entry. -/
structure Msg where
  role : List Char
  content : List Char

/-- Engine state the turn function reads and writes: the history, the tool
counter, the running-task registry, and the command handler's debug flag. -/
structure EngineState where
  messages : List Msg
  tool_counter : Nat
  running_tools : List (List Char)
  debugEnabled : Bool

/-- Task id assigned at dispatch: `f"tool_\x7bcounter\x7d"`. -/
def taskIdFor (n : Nat) : List Char :=
  "tool_".data ++ natDigits n

/-- The assistant history entry summarizing a dispatched call:
`f"Calling tool \x60...\x60 with arguments: \x60...\x60"` with the arguments
rendered by Python `repr`. -/
def toolCallSummary (tc : ToolCall) : List Char :=
  "Calling tool `".data ++ tc.tool ++ "` with arguments: `".data ++ pyRepr tc.args ++ "`".data

/-- What one turn did, beyond the new state: whether to keep looping,
whether the model was called, which tool calls were dispatched to
background tasks (with their assigned ids), and a printed command
response, if any. -/
structure TurnOutput where
  keepGoing : Bool
  state : EngineState
  llmCalled : Bool
  dispatched : List (List Char × ToolCall)
  commandResponse : Option (List Char)

/-- Lines 322-331 of `chat_session.py`: two independent `if`s on the
parsed response.  A truthy `tool_call` (a `ToolCall` instance is always
truthy) appends the assistant summary entry and starts a background task
(`_start_tool_execution`: increment the counter, register
`f"tool_\x7bn\x7d"`); a truthy `message` — Python's `if parsed.message:`
is false for `None` and for the empty string — appends an assistant entry.
Both run when both are truthy. -/
def apply_llm_response (st : EngineState) (parsed : LLMResponse) :
    EngineState × List (List Char × ToolCall) :=
  let step1 : EngineState × List (List Char × ToolCall) :=
    match parsed.tool_call with
    | some tc =>
      let counter := st.tool_counter + 1
      let tid := taskIdFor counter
      ({ st with
          messages := st.messages ++ [⟨"assistant".data, toolCallSummary tc⟩],
          tool_counter := counter,
          running_tools := st.running_tools ++ [tid] }, [(tid, tc)])
    | none => (st, [])
  match parsed.message with
  | some m =>
    if m = [] then step1
    else ({ step1.1 with messages := step1.1.messages ++ [⟨"assistant".data, m⟩] }, step1.2)
  | none => step1

/-- The tail of a turn that reaches the model: call the client on the full
history, parse, and apply the response. -/
def callModelStep (llm : List Msg → List Char) (st : EngineState) : TurnOutput :=
  let raw := llm st.messages
  let parsed := parse_llm_response raw
  let applied := apply_llm_response st parsed
  ⟨true, applied.1, true, applied.2, none⟩

/-- Embedding of `ChatSession._process_conversation_turn` on one dequeued
item.  `llm` is the collaborating model client (`LLMClient.get_response`).
User input: exit keywords end the session before anything else; the
`/history` literal and recognized commands are handled locally without
touching history or the model (a bare `/` propagates `IndexError` as
`.error`); otherwise the input joins history.  A tool result joins history
as a `system`-role entry holding the `json.dumps` of its payload.  Both
non-local paths then call the model. -/
def process_conversation_turn (llm : List Msg → List Char) (st : EngineState) :
    QItem → Except (List Char) TurnOutput
  | QItem.user content =>
    if pyLower (pyStrip content) ∈ ["quit".data, "exit".data] then
      .ok ⟨false, st, false, [], none⟩
    else if pyLower (pyStrip content) ∈ ["/history".data] then
      .ok ⟨true, st, false, [], none⟩
    else if is_command content then
      match execute_command st.debugEnabled content with
      | .error e => .error e
      | .ok (resp, dbg) =>
        .ok ⟨true, { st with debugEnabled := dbg }, false, [], some resp⟩
    else
      .ok (callModelStep llm { st with messages := st.messages ++ [⟨"user".data, content⟩] })
  | QItem.toolRes _ result _ =>
    .ok (callModelStep llm { st with messages := st.messages ++ [⟨"system".data, jsonDumps result⟩] })

/-! ## Model client (`clients/llm_client.py`) -/

/-- Observable behaviour of the HTTP transport under `LLMClient.get_response`:
either `client.post` raises an `httpx.RequestError`, or a response arrives
with a status code and a body (`none` for a body `response.json()` cannot
decode). -/
inductive HttpOutcome where
  | requestError (msg : List Char)
  | response (status : Nat) (body : Option Json)

/-- The degraded text built in the `except httpx.RequestError` branch. -/
def llmErrorText (m : List Char) : List Char :=
  "I encountered an error: Error getting LLM response: ".data ++ m ++
    ". Please try again or rephrase your request.".data

/-- Association lookup in a decoded JSON object (Python `data[key]`);
`none` stands for the raised `KeyError`/`TypeError`. -/
def jsonGet (j : Json) (key : List Char) : Option Json :=
  match j with
  | Json.jobj kvs =>
    match kvs.find? (fun kv => kv.1 = key) with
    | some kv => some kv.2
    | none => none
  | _ => none

/-- Embedding of `LLMClient.get_response`.  In httpx the exception classes
`RequestError` and `HTTPStatusError` are siblings under `HTTPError`, so the
source's `except httpx.RequestError` does not catch what
`response.raise_for_status()` raises on a non-2xx status (nor the
`isinstance(e, httpx.HTTPStatusError)` test inside that handler ever hold);
likewise decode errors from `response.json()` and lookup errors on
`data["choices"][0]["message"]["content"]` propagate.  `.error` carries a
propagating exception, `.ok` the returned value. -/
def get_response (outcome : HttpOutcome) : Except (List Char) Json :=
  match outcome with
  | HttpOutcome.requestError m => .ok (Json.jstr (llmErrorText m))
  | HttpOutcome.response status body =>
    if 200 ≤ status ∧ status ≤ 299 then
      match body with
      | none => .error "json.JSONDecodeError".data
      | some data =>
        match jsonGet data "choices".data with
        | none => .error "KeyError: choices".data
        | some (Json.jarr []) => .error "IndexError: list index out of range".data
        | some (Json.jarr (c0 :: _)) =>
          match jsonGet c0 "message".data with
          | none => .error "KeyError: message".data
          | some msg =>
            match jsonGet msg "content".data with
            | none => .error "KeyError: content".data
            | some content => .ok content
        | some _ => .error "TypeError: list indices".data
    else .error "httpx.HTTPStatusError".data

/-! ## Concrete scenario material -/

/-- The well-formed tool-argument body `\x7b"a":1\x7d` of the spec's parser
property. -/
def jsonBodyA : List Char := "\x7b\"a\":1\x7d".data

/-- A raw model response carrying exactly one tool-call channel
`commentary to=<ns>.<T> json` with body `\x7b"a":1\x7d`. -/
def canonicalToolText (ns T : List Char) : List Char :=
  tcMarker ++ ns ++ '.' :: T ++ ' ' :: jsonLit ++ jsonBodyA

/-- First scripted model response of the end-to-end weather scenario:
analysis plus a `get_weather` tool call. -/
def weatherRaw1 : List Char :=
  ("<|channel|>analysis<|message|>User is asking for weather. I need to call the " ++
    "get_weather tool.<|channel|>commentary to=functions.get_weather json<|message|>" ++
    "\x7b\"location\": \"London\"\x7d").data

/-- Second scripted model response: the final answer. -/
def weatherRaw2 : List Char :=
  "<|channel|>final<|message|>The weather in London is 15C.".data

/-- Scripted model client: the first call sees `[system, user]` (length 2)
and emits the tool call; the later call sees the longer history and emits
the final answer. -/
def weatherStub (h : List Msg) : List Char :=
  if h.length ≤ 2 then weatherRaw1 else weatherRaw2

/-- A provider offering `get_weather`, whose execution returns one
`TextContent` holding the JSON text `\x7b"temperature": "15C"\x7d`. -/
def weatherServer : Server :=
  ⟨ListToolsOutcome.ok ["get_weather".data],
    fun _ _ => ExecOutcome.ok [ContentItem.text "\x7b\"temperature\": \"15C\"\x7d".data]⟩

/-- The seeded user input of the weather scenario. -/
def weatherUserText : List Char := "What is the weather in London?".data

/-- Engine state right after initialization: history holds only the system
prompt. -/
def initialState (sysContent : List Char) : EngineState :=
  ⟨[⟨"system".data, sysContent⟩], 0, [], false⟩

/-- The end-to-end weather scenario of the spec, §8: run the user turn,
run the dispatched call's background task against `weatherServer`, feed the
queued `ToolResult` to a second turn, and return the final history
(`[]` on any shape this scenario does not produce). -/
def weatherScenario (sysContent : List Char) : List Msg :=
  match process_conversation_turn weatherStub (initialState sysContent)
      (QItem.user weatherUserText) with
  | .error _ => []
  | .ok out1 =>
    match out1.dispatched with
    | [(tid, tc)] =>
      match execute_tool_and_queue_result [weatherServer] tc tid [] out1.state.running_tools with
      | (item :: _, _) =>
        match process_conversation_turn weatherStub out1.state item with
        | .ok out2 => out2.state.messages
        | .error _ => []
      | ([], _) => []
    | _ => []

/-- Raw response whose tool-call body is malformed JSON and which carries
no other channel. -/
def c3NoFinal : List Char :=
  "<|channel|>commentary to=functions.t json<|message|>\x7bbad".data

/-- Raw response whose tool-call body is malformed JSON and which also
carries a `final` channel. -/
def c3WithFinal : List Char :=
  "<|channel|>commentary to=functions.t json<|message|>\x7bbad<|channel|>final<|message|>ok".data

/-- Raw response carrying both a well-formed tool call and a final
message. -/
def c4RawBoth : List Char :=
  "<|channel|>commentary to=functions.get json<|message|>\x7b\"a\":1\x7d<|channel|>final<|message|>done".data

/-! ## Helper lemmas -/

theorem isPrefixOf_append_self (p t : List Char) : p.isPrefixOf (p ++ t) = true :=
  List.isPrefixOf_iff_prefix.mpr (List.prefix_append p t)

theorem cons_ne_of_head {c : Char} {t w : List Char} (h : w[0]? ≠ some c) :
    c :: t ≠ w := by
  intro he
  apply h
  rw [← he]
  simp

theorem not_isPrefixOf_of_ne {m l : List Char} (i : Nat) (hne : m[i]? ≠ l[i]?)
    (him : i < m.length) : m.isPrefixOf l = false := by
  rcases Bool.eq_false_or_eq_true (m.isPrefixOf l) with h | h
  · exfalso
    obtain ⟨u, hu⟩ := List.isPrefixOf_iff_prefix.mp h
    apply hne
    rw [← hu, List.getElem?_append]
    simp [him]
  · exact h


theorem pyStrip_eq_self {l : List Char} (h : ∀ c ∈ l, isPySpace c = false) :
    pyStrip l = l := by
  unfold pyStrip dropTrailing
  have h1 : l.dropWhile isPySpace = l := by
    cases l with
    | nil => rfl
    | cons c t =>
      rw [List.dropWhile_cons]
      simp [h c (by simp)]
  rw [h1]
  have h2 : l.reverse.dropWhile isPySpace = l.reverse := by
    cases hr : l.reverse with
    | nil => rfl
    | cons c t =>
      have hc : c ∈ l := by
        rw [← List.mem_reverse, hr]
        simp
      rw [List.dropWhile_cons]
      simp [h c hc]
  rw [h2, List.reverse_reverse]

/-! ## C10 -/

/-- C10: for every raw input, the parse result's commentary field is the
entire raw input — the constructor sets it and no later branch of
`_parse_llm_response` reassigns it, marker or no marker. -/
theorem c10_commentary_is_whole_input (l : List Char) :
    (parse_llm_response l).commentary = some l := by
  unfold parse_llm_response
  cases hA : searchChannel analysisMarker l <;>
    rcases hT : toolSearch l with _ | ⟨g1, g2⟩ <;>
      cases hF : searchChannel finalMarker l <;>
        first
          | rfl
          | (cases hJ : jsonLoads (pyStrip g2) <;> simp only [hJ])

/-! ## C8 -/

/-- C8: a user input whose trimmed, case-folded content is an exit keyword
ends the session (`keepGoing = false`) without calling the model, without
dispatching, and with the history untouched. -/
theorem c8_exit_ends_session (llm : List Msg → List Char) (st : EngineState)
    (content : List Char)
    (h : pyLower (pyStrip content) ∈ ["quit".data, "exit".data]) :
    process_conversation_turn llm st (QItem.user content) =
      .ok ⟨false, st, false, [], none⟩ := by
  simp only [process_conversation_turn]
  rw [if_pos h]

/-- Witness for C8 at the spec's own example `"  EXIT  "`. -/
theorem c8_exit_ends_session_witness :
    process_conversation_turn (fun _ => []) ⟨[], 0, [], false⟩
        (QItem.user "  EXIT  ".data) =
      .ok ⟨false, ⟨[], 0, [], false⟩, false, [], none⟩ :=
  c8_exit_ends_session (fun _ => []) ⟨[], 0, [], false⟩ "  EXIT  ".data (by decide)

/-! ## C5 -/

/-- C5: the code contradicts the claim that every transport failure is
surfaced as text.  A raised `httpx.RequestError` is indeed degraded to the
fixed error text, but a non-2xx response makes `raise_for_status()` raise
`httpx.HTTPStatusError`, which `except httpx.RequestError` does not catch
(the classes are siblings in httpx), so the call raises instead of
returning text. -/
theorem c5_status_error_escapes :
    get_response (HttpOutcome.requestError "connection refused".data) =
      .ok (Json.jstr (llmErrorText "connection refused".data)) ∧
    get_response (HttpOutcome.response 500 (some (Json.jobj []))) =
      .error "httpx.HTTPStatusError".data :=
  ⟨rfl, rfl⟩

/-! ## C2 -/

/-- C2 counterexample: a call whose tool no provider offers enqueues
nothing at all — the queue stays empty instead of receiving the claimed
error `ToolResult`, so the engine never sees a queue item for the call. -/
theorem c2_counterexample :
    execute_tool_and_queue_result
      [⟨ListToolsOutcome.ok ["other_tool".data], fun _ _ => ExecOutcome.ok []⟩]
      ⟨"missing_tool".data, Json.jobj []⟩ "tool_1".data [] ["tool_1".data] =
      ([], []) :=
  rfl

/-- C2 amended: when no provider lists the tool, `_execute_tool_call`
returns `None`, so `_execute_tool_and_queue_result` enqueues no
`ToolResult` whatsoever (the failure is only logged/printed); only the
bookkeeping entry is removed. -/
theorem c2_amended_not_found_enqueues_nothing (servers : List Server)
    (tc : ToolCall) (tid : List Char) (q : List QItem) (r : List (List Char))
    (h : findToolServer servers tc.tool = .ok none) :
    execute_tool_and_queue_result servers tc tid q r = (q, r.erase tid) := by
  unfold execute_tool_and_queue_result execute_tool_call
  rw [h]

/-- Witness for the amended C2 on a concrete provider set. -/
theorem c2_amended_witness :
    execute_tool_and_queue_result
      [⟨ListToolsOutcome.ok ["other_tool".data], fun _ _ => ExecOutcome.ok []⟩]
      ⟨"missing_tool".data, Json.jobj []⟩ "tool_9".data [QItem.user "hi".data]
      ["tool_9".data] = ([QItem.user "hi".data], []) :=
  c2_amended_not_found_enqueues_nothing _ _ _ _ _ rfl

/-! ## C1 -/

/-- C1 counterexample: the provider's executor raises, yet no `ToolResult`
reaches the queue — `_execute_tool_call` catches the exception itself and
returns `None`, so the `except` branch of `_execute_tool_and_queue_result`
never runs and the engine is never notified. -/
theorem c1_counterexample :
    execute_tool_and_queue_result
      [⟨ListToolsOutcome.ok ["get_data".data], fun _ _ => ExecOutcome.exn "boom".data⟩]
      ⟨"get_data".data, Json.jobj []⟩ "tool_1".data [] ["tool_1".data] =
      ([], []) :=
  rfl

/-- C1 amended: per dispatched call at most one `ToolResult`, always tagged
with the call's task id and tool name, is enqueued, and the bookkeeping
entry is always removed; but delivery is not exactly-once — nothing is
enqueued precisely when `_execute_tool_call` returns `None` (tool not
found, executor exception, empty or non-text content) or returns the empty
string. -/
theorem c1_amended_at_most_once (servers : List Server) (tc : ToolCall)
    (tid : List Char) (q : List QItem) (r : List (List Char)) :
    (execute_tool_and_queue_result servers tc tid q r).2 = r.erase tid ∧
    ((execute_tool_and_queue_result servers tc tid q r).1 = q ∨
      ∃ res, (execute_tool_and_queue_result servers tc tid q r).1 =
        q ++ [QItem.toolRes tid res tc.tool]) ∧
    ((execute_tool_and_queue_result servers tc tid q r).1 = q ↔
      (execute_tool_call servers tc = .ok none ∨
        execute_tool_call servers tc = .ok (some []))) := by
  unfold execute_tool_and_queue_result
  rcases hec : execute_tool_call servers tc with e | o
  · exact ⟨rfl, Or.inr ⟨_, rfl⟩, by simp⟩
  · rcases o with _ | s
    · exact ⟨rfl, Or.inl rfl, by simp⟩
    · by_cases hs : s = []
      · subst hs
        exact ⟨rfl, Or.inl (by simp), by simp⟩
      · exact ⟨rfl, Or.inr ⟨Json.jstr s, by simp [hs]⟩, by simp [hs]⟩

/-! ## C4 -/

/-- C4 counterexample: the source uses two independent `if`s, not an
`else if` — on a response carrying both a tool call and a final message
the turn appends the assistant tool-call summary AND an assistant
finalMessage entry (two new history entries, not one). -/
theorem c4_counterexample :
    process_conversation_turn (fun _ => c4RawBoth) ⟨[], 0, [], false⟩
        (QItem.user "hi".data) =
      .ok ⟨true,
        ⟨[⟨"user".data, "hi".data⟩,
          ⟨"assistant".data,
            "Calling tool `get` with arguments: `\x7b\x27a\x27: 1\x7d`".data⟩,
          ⟨"assistant".data, "done".data⟩], 1, ["tool_1".data], false⟩,
        true, [("tool_1".data, ⟨"get".data, Json.jobj [("a".data, Json.jint 1)]⟩)],
        none⟩ :=
  rfl

/-- C4 amended: when the parsed response has a tool call, the turn appends
the assistant summary entry and dispatches it; but the finalMessage branch
is an independent `if`, so when a truthy (nonempty) finalMessage is also
present a second assistant entry is appended in the same turn. -/
theorem c4_amended_both_branches_run (st : EngineState) (parsed : LLMResponse)
    (tc : ToolCall) (m : List Char)
    (htc : parsed.tool_call = some tc) (hm : parsed.message = some m)
    (hmne : m ≠ []) :
    apply_llm_response st parsed =
      ({ st with
          messages := st.messages ++
            [⟨"assistant".data, toolCallSummary tc⟩, ⟨"assistant".data, m⟩],
          tool_counter := st.tool_counter + 1,
          running_tools := st.running_tools ++ [taskIdFor (st.tool_counter + 1)] },
        [(taskIdFor (st.tool_counter + 1), tc)]) := by
  unfold apply_llm_response
  rw [htc, hm]
  simp [hmne]

/-- Witness for the amended C4 on a concrete parsed response. -/
theorem c4_amended_witness :
    apply_llm_response ⟨[], 0, [], false⟩
        ⟨some "assistant".data, none, some "done".data,
          some ⟨"t".data, Json.jnull⟩, none⟩ =
      (⟨[⟨"assistant".data, toolCallSummary ⟨"t".data, Json.jnull⟩⟩,
         ⟨"assistant".data, "done".data⟩], 1, [taskIdFor 1], false⟩,
        [(taskIdFor 1, ⟨"t".data, Json.jnull⟩)]) :=
  c4_amended_both_branches_run ⟨[], 0, [], false⟩ _ _ _ rfl rfl (by decide)

/-! ## C3 -/

/-- C3 counterexample: a raw text whose tool-call body is malformed but
which also carries a `final` channel — the tool call is invalidated, yet
`finalMessage` is the final channel's body, not the fixed
malformed-argument string, because the final regex runs after the error
message was installed and overwrites it. -/
theorem c3_counterexample :
    (parse_llm_response c3WithFinal).tool_call = none ∧
    (parse_llm_response c3WithFinal).message = some "ok".data ∧
    (parse_llm_response c3WithFinal).message ≠ some malformedArgsMsg :=
  ⟨rfl, rfl, by decide⟩

/-- C3 amended: on a malformed tool-call body, `toolCall` is unset and
`finalMessage` is the fixed malformed-argument string unless the text also
carries a `final` channel, whose trimmed body then overwrites it.
Idempotence holds trivially: the parser is a pure function of the text. -/
theorem c3_amended_malformed_body (l g1 g2 : List Char)
    (ht : toolSearch l = some (g1, g2)) (hj : jsonLoads (pyStrip g2) = none) :
    (parse_llm_response l).tool_call = none ∧
    (parse_llm_response l).message =
      (match searchChannel finalMarker l with
        | some b => some (pyStrip b)
        | none => some malformedArgsMsg) := by
  unfold parse_llm_response
  cases hA : searchChannel analysisMarker l <;>
    cases hF : searchChannel finalMarker l <;>
      simp [hA, hF, ht, hj]

/-- Witness for the amended C3 on a malformed body with no final channel. -/
theorem c3_amended_witness :
    (parse_llm_response c3NoFinal).tool_call = none ∧
    (parse_llm_response c3NoFinal).message =
      (match searchChannel finalMarker c3NoFinal with
        | some b => some (pyStrip b)
        | none => some malformedArgsMsg) :=
  c3_amended_malformed_body c3NoFinal "t".data "\x7bbad".data rfl rfl

/-! ## C6 -/

/-- C6 counterexample: in the end-to-end weather scenario the history after
two turns does have five entries, but the fourth is a `system`-role entry,
not a `tool`-role entry, and its content is only the `json.dumps` of the
payload — no tag with the originating tool name. -/
theorem c6_counterexample :
    (weatherScenario "sys".data).map Msg.role =
      ["system".data, "user".data, "assistant".data, "system".data,
        "assistant".data] ∧
    (weatherScenario "sys".data).map Msg.role ≠
      ["system".data, "user".data, "assistant".data, "tool".data,
        "assistant".data] :=
  ⟨rfl, by decide⟩

/-- C6 amended: after the two turns the history is exactly five messages
`[system, user, assistant(tool-call summary), system(json.dumps payload),
assistant(final answer)]` — the tool payload entry carries role `system`
(not `tool`) and is not tagged with the tool name. -/
theorem c6_amended_scenario_history (sysContent : List Char) :
    weatherScenario sysContent =
      [⟨"system".data, sysContent⟩,
       ⟨"user".data, weatherUserText⟩,
       ⟨"assistant".data,
         "Calling tool `get_weather` with arguments: `\x7b\x27location\x27: \x27London\x27\x7d`".data⟩,
       ⟨"system".data, "\"\x7b\\\"temperature\\\": \\\"15C\\\"\x7d\"".data⟩,
       ⟨"assistant".data, "The weather in London is 15C.".data⟩] :=
  rfl

/-! ## C9 -/

/-- C9 counterexample: the bare input `/` is recognized as a command
(trimmed text starts with the prefix), but `execute_command` indexes
`command_parts[0]` on an empty split and raises `IndexError`, which
nothing in the turn catches — no response is produced at all. -/
theorem c9_counterexample :
    is_command "/".data = true ∧
    process_conversation_turn (fun _ => []) ⟨[], 0, [], false⟩
        (QItem.user "/".data) =
      .error "IndexError: list index out of range".data :=
  ⟨rfl, rfl⟩

/-- C9 amended: every command input whose trimmed text has a name after
the prefix is executed locally — the turn continues, the model is not
called, nothing is dispatched, and history is unchanged; when the name is
not `debug`/`help` (and the input is not the special-cased `/history`) the
response is the fixed unknown-command message pointing at `/help`. -/
theorem c9_amended_commands_local (llm : List Msg → List Char)
    (st : EngineState) (content name : List Char) (args : List (List Char))
    (hc : is_command content = true)
    (hsplit : pySplit ((pyStrip content).drop 1) = name :: args) :
    ∃ out, process_conversation_turn llm st (QItem.user content) = .ok out ∧
      out.keepGoing = true ∧ out.state.messages = st.messages ∧
      out.llmCalled = false ∧ out.dispatched = [] ∧
      (pyLower (pyStrip content) ≠ "/history".data →
        pyLower name ≠ "debug".data → pyLower name ≠ "help".data →
        out.commandResponse = some ("Unknown command: /".data ++ pyLower name ++
          ". Type /help for available commands.".data)) := by
  obtain ⟨u, hu⟩ : ∃ u, pyStrip content = '/' :: u := by
    unfold is_command at hc
    obtain ⟨v, hv⟩ := List.isPrefixOf_iff_prefix.mp hc
    exact ⟨v, by rw [← hv]; rfl⟩
  have hlow : pyLower (pyStrip content) = '/' :: pyLower u := by
    rw [hu]
    rfl
  have hexit : pyLower (pyStrip content) ∉ ["quit".data, "exit".data] := by
    rw [hlow]
    intro hmem
    rcases List.mem_cons.mp hmem with h | hmem2
    · exact cons_ne_of_head (by decide) h
    · rcases List.mem_cons.mp hmem2 with h | h
      · exact cons_ne_of_head (by decide) h
      · simp at h
  simp only [process_conversation_turn]
  rw [if_neg hexit]
  by_cases hist : pyLower (pyStrip content) = "/history".data
  · rw [if_pos (by simp [hist])]
    exact ⟨_, rfl, rfl, rfl, rfl, rfl, fun hne _ _ => absurd hist hne⟩
  · rw [if_neg (by simp [hist]), if_pos hc]
    simp only [execute_command, hsplit]
    by_cases hd : pyLower name = "debug".data
    · simp only [if_pos hd]
      exact ⟨_, rfl, rfl, rfl, rfl, rfl, fun _ hdd _ => absurd hd hdd⟩
    · by_cases hh : pyLower name = "help".data
      · simp only [if_neg hd, if_pos hh]
        exact ⟨_, rfl, rfl, rfl, rfl, rfl, fun _ _ hhh => absurd hh hhh⟩
      · simp only [if_neg hd, if_neg hh]
        exact ⟨_, rfl, rfl, rfl, rfl, rfl, fun _ _ _ => rfl⟩

/-- Witness for the amended C9 at the spec's own unknown command example. -/
theorem c9_amended_witness :
    ∃ out, process_conversation_turn (fun _ => []) ⟨[], 0, [], false⟩
        (QItem.user "/foo".data) = .ok out ∧
      out.keepGoing = true ∧
      out.state.messages = (⟨[], 0, [], false⟩ : EngineState).messages ∧
      out.llmCalled = false ∧ out.dispatched = [] ∧
      (pyLower (pyStrip "/foo".data) ≠ "/history".data →
        pyLower "foo".data ≠ "debug".data → pyLower "foo".data ≠ "help".data →
        out.commandResponse = some ("Unknown command: /".data ++
          pyLower "foo".data ++ ". Type /help for available commands.".data)) :=
  c9_amended_commands_local (fun _ => []) ⟨[], 0, [], false⟩ "/foo".data
    "foo".data [] rfl rfl

/-! ## C7 -/

theorem mem_of_getElemQ {l : List Char} {i : Nat} {a : Char}
    (h : l[i]? = some a) : a ∈ l := by
  obtain ⟨hi, hv⟩ := List.getElem?_eq_some.mp h
  rw [← hv]
  exact List.getElem_mem hi

theorem grabToolRest_clean (body : List Char) :
    ∀ (l acc : List Char), (∀ c ∈ l, c ≠ '<' ∧ c ≠ ' ') →
    grabToolRest (l ++ (' ' :: (jsonLit ++ body))) acc =
      some (acc.reverse ++ l, captureBody body) := by
  intro l
  induction l with
  | nil =>
    intro acc _
    show grabToolRest (' ' :: (jsonLit ++ body)) acc = _
    simp [grabToolRest, isPrefixOf_append_self, List.drop_left]
  | cons c t ih =>
    intro acc h
    have hc := h c (List.mem_cons_self c t)
    have hsplitT : c :: (t ++ (' ' :: (jsonLit ++ body))) =
        (c :: t ++ ' ' :: "json".data) ++ ('<' :: "|message|>".data ++ body) := by
      have hj : jsonLit = "json".data ++ '<' :: "|message|>".data := by decide
      rw [hj]
      simp [List.append_assoc]
    have hstep : jsonLit.isPrefixOf (c :: (t ++ (' ' :: (jsonLit ++ body)))) = false := by
      apply not_isPrefixOf_of_ne 4 ?_ (by decide)
      rw [hsplitT, List.getElem?_append]
      have hlen : 4 < (c :: t ++ ' ' :: "json".data).length := by
        simp
      rw [if_pos hlen]
      have h4 : jsonLit[4]? = some '<' := by decide
      rw [h4]
      intro heq
      have hmem : ('<' : Char) ∈ (c :: t ++ ' ' :: "json".data) :=
        mem_of_getElemQ heq.symm
      rcases List.mem_cons.mp hmem with h1 | h1
      · exact hc.1 h1.symm
      · rcases List.mem_append.mp h1 with h2 | h2
        · exact (h _ (List.mem_cons_of_mem c h2)).1 rfl
        · simp at h2
    show grabToolRest (c :: (t ++ (' ' :: (jsonLit ++ body)))) acc = _
    simp only [grabToolRest]
    rw [if_neg (fun hand => hc.2 hand.1)]
    rw [hstep]
    simp only [Bool.false_eq_true, if_false]
    rw [ih (c :: acc) (fun x hx => h x (List.mem_cons_of_mem c hx))]
    simp

theorem funcDot_isPrefixOf_iff {ns rest : List Char} (hdot : '.' ∉ ns) :
    funcDot.isPrefixOf (ns ++ '.' :: rest) = true ↔ ns = "functions".data := by
  constructor
  · intro h
    obtain ⟨u, hu⟩ := List.isPrefixOf_iff_prefix.mp h
    rcases Nat.lt_or_ge ns.length 10 with hlt | hge
    · have hfl : funcDot.length = 10 := by decide
      have hidx : funcDot[ns.length]? = some '.' := by
        have h1 : (funcDot ++ u)[ns.length]? = funcDot[ns.length]? := by
          rw [List.getElem?_append]
          rw [if_pos (by omega)]
        have h2 : (ns ++ '.' :: rest)[ns.length]? = some '.' := by
          rw [List.getElem?_append]
          simp
        rw [← h1, hu, h2]
      have h9 : ns.length = 9 := by
        have hkey : ∀ k, k < 10 → funcDot[k]? = some '.' → k = 9 := by decide
        exact hkey _ hlt hidx
      have t1 : (funcDot ++ u).take 9 = (ns ++ '.' :: rest).take 9 := by rw [hu]
      rw [List.take_append_of_le_length (by decide),
        List.take_append_of_le_length (by omega)] at t1
      have t2 : ns.take 9 = ns := by
        rw [← h9]
        exact List.take_length ns
      rw [t2] at t1
      rw [← t1]
      decide
    · exfalso
      have hfl : funcDot.length = 10 := by decide
      have t1 : (funcDot ++ u).take 10 = (ns ++ '.' :: rest).take 10 := by rw [hu]
      have t2 : (funcDot ++ u).take 10 = funcDot := by
        rw [← hfl, List.take_left]
      have t3 : (ns ++ '.' :: rest).take 10 = ns.take 10 :=
        List.take_append_of_le_length hge
      have t4 : funcDot = ns.take 10 := by rw [← t2, t1, t3]
      have hm : ('.' : Char) ∈ ns.take 10 := by
        rw [← t4]
        decide
      exact hdot (List.take_subset _ _ hm)
  · intro h
    subst h
    have he : "functions".data ++ '.' :: rest = funcDot ++ rest := by
      have : funcDot = "functions".data ++ ['.'] := by decide
      rw [this]
      simp
    rw [he]
    exact isPrefixOf_append_self _ _

theorem toolSearch_marker_fn {X : List Char} {r : List Char × List Char}
    (hfn : funcDot.isPrefixOf X = true)
    (hg : grabToolRest (X.drop funcDot.length) [] = some r) :
    toolSearch (tcMarker ++ X) = some r := by
  have hm : tcMarker = '<' :: "|channel|>commentary to=".data := by decide
  have hcond :
      tcMarker.isPrefixOf ('<' :: ("|channel|>commentary to=".data ++ X)) = true := by
    rw [hm, ← List.cons_append]
    exact isPrefixOf_append_self _ _
  have hdrop :
      ('<' :: ("|channel|>commentary to=".data ++ X)).drop tcMarker.length = X := by
    rw [hm, ← List.cons_append]
    exact List.drop_left _ _
  rw [hm, List.cons_append]
  rw [toolSearch]
  rw [hcond]
  simp only [if_true]
  rw [hdrop, hfn]
  simp only [if_true]
  rw [hg]

theorem toolSearch_marker_nofn {X : List Char} {r : List Char × List Char}
    (hfn : funcDot.isPrefixOf X = false)
    (hg : grabToolRest X [] = some r) :
    toolSearch (tcMarker ++ X) = some r := by
  have hm : tcMarker = '<' :: "|channel|>commentary to=".data := by decide
  have hcond :
      tcMarker.isPrefixOf ('<' :: ("|channel|>commentary to=".data ++ X)) = true := by
    rw [hm, ← List.cons_append]
    exact isPrefixOf_append_self _ _
  have hdrop :
      ('<' :: ("|channel|>commentary to=".data ++ X)).drop tcMarker.length = X := by
    rw [hm, ← List.cons_append]
    exact List.drop_left _ _
  rw [hm, List.cons_append]
  rw [toolSearch]
  rw [hcond]
  simp only [if_true]
  rw [hdrop, hfn]
  simp only [Bool.false_eq_true, if_false]
  rw [hg]

theorem tool_call_of_parse {l g1 g2 : List Char} {args : Json}
    (ht : toolSearch l = some (g1, g2)) (hj : jsonLoads (pyStrip g2) = some args) :
    (parse_llm_response l).tool_call = some ⟨pyStrip g1, args⟩ := by
  unfold parse_llm_response
  cases hA : searchChannel analysisMarker l <;>
    cases hF : searchChannel finalMarker l <;>
      simp [hA, hF, ht, hj]

/-- C7 counterexample: for the namespace `weather` the parsed tool name is
`weather.get`, not `get` — only the literal namespace `functions.` is
stripped by the tool-call regex, any other namespace stays part of the
name. -/
theorem c7_counterexample :
    (parse_llm_response (canonicalToolText "weather".data "get".data)).tool_call =
      some ⟨"weather.get".data, Json.jobj [("a".data, Json.jint 1)]⟩ ∧
    "weather.get".data ≠ "get".data :=
  ⟨rfl, by decide⟩

/-- C7 amended: for raw texts `commentary to=<ns>.<T> json` with body
`\x7b"a":1\x7d` (namespace and name free of `<` and whitespace, namespace
dot-free), the parsed arguments are `\x7ba: 1\x7d` and the parsed tool name
is `T` exactly when the namespace is the literal `functions`; any other
namespace is kept, yielding `ns.T`. -/
theorem c7_amended_namespace_stripping (ns T : List Char)
    (hns : ∀ c ∈ ns, c ≠ '<' ∧ isPySpace c = false)
    (hT : ∀ c ∈ T, c ≠ '<' ∧ isPySpace c = false)
    (hdot : '.' ∉ ns) :
    (parse_llm_response (canonicalToolText ns T)).tool_call =
      some ⟨(if ns = "functions".data then T else ns ++ '.' :: T),
        Json.jobj [("a".data, Json.jint 1)]⟩ := by
  have hnsclean : ∀ c ∈ ns, c ≠ '<' ∧ c ≠ ' ' := by
    intro c hc
    refine ⟨(hns c hc).1, ?_⟩
    intro he
    have h2 := (hns c hc).2
    rw [he] at h2
    exact absurd h2 (by decide)
  have hTclean : ∀ c ∈ T, c ≠ '<' ∧ c ≠ ' ' := by
    intro c hc
    refine ⟨(hT c hc).1, ?_⟩
    intro he
    have h2 := (hT c hc).2
    rw [he] at h2
    exact absurd h2 (by decide)
  have hcan : canonicalToolText ns T =
      tcMarker ++ (ns ++ '.' :: (T ++ (' ' :: (jsonLit ++ jsonBodyA)))) := by
    unfold canonicalToolText
    simp [List.append_assoc]
  have hcb : captureBody jsonBodyA = jsonBodyA := by decide
  have hj : jsonLoads (pyStrip jsonBodyA) =
      some (Json.jobj [("a".data, Json.jint 1)]) := rfl
  by_cases hfn : ns = "functions".data
  · subst hfn
    have hfd : "functions".data ++ '.' :: (T ++ (' ' :: (jsonLit ++ jsonBodyA))) =
        funcDot ++ (T ++ (' ' :: (jsonLit ++ jsonBodyA))) := by
      have h : funcDot = "functions".data ++ ['.'] := by decide
      rw [h]
      simp
    have ht : toolSearch (canonicalToolText "functions".data T) =
        some (T, jsonBodyA) := by
      rw [hcan, hfd]
      rw [← hcb]
      apply toolSearch_marker_fn (isPrefixOf_append_self _ _)
      rw [List.drop_left]
      have := grabToolRest_clean jsonBodyA T [] hTclean
      simpa using this
    rw [tool_call_of_parse ht hj]
    rw [pyStrip_eq_self (fun c hc => (hT c hc).2)]
    simp
  · have hpf : funcDot.isPrefixOf
        (ns ++ '.' :: (T ++ (' ' :: (jsonLit ++ jsonBodyA)))) = false := by
      cases h : funcDot.isPrefixOf (ns ++ '.' :: (T ++ (' ' :: (jsonLit ++ jsonBodyA)))) with
      | false => rfl
      | true => exact absurd ((funcDot_isPrefixOf_iff hdot).mp h) hfn
    have hclean2 : ∀ c ∈ ns ++ '.' :: T, c ≠ '<' ∧ c ≠ ' ' := by
      intro c hc
      rcases List.mem_append.mp hc with h1 | h1
      · exact hnsclean c h1
      · rcases List.mem_cons.mp h1 with h2 | h2
        · subst h2
          exact ⟨by decide, by decide⟩
        · exact hTclean c h2
    have hsplit2 : ns ++ '.' :: (T ++ (' ' :: (jsonLit ++ jsonBodyA))) =
        (ns ++ '.' :: T) ++ (' ' :: (jsonLit ++ jsonBodyA)) := by
      simp [List.append_assoc]
    have ht : toolSearch (canonicalToolText ns T) =
        some (ns ++ '.' :: T, jsonBodyA) := by
      rw [hcan]
      rw [← hcb]
      apply toolSearch_marker_nofn hpf
      rw [hsplit2]
      have := grabToolRest_clean jsonBodyA (ns ++ '.' :: T) [] hclean2
      simpa using this
    have hps : ∀ c ∈ ns ++ '.' :: T, isPySpace c = false := by
      intro c hc
      rcases List.mem_append.mp hc with h1 | h1
      · exact (hns c h1).2
      · rcases List.mem_cons.mp h1 with h2 | h2
        · subst h2
          decide
        · exact (hT c h2).2
    rw [tool_call_of_parse ht hj]
    rw [pyStrip_eq_self hps]
    simp [hfn]

/-- Witness for the amended C7 at namespace `weather`, name `get`. -/
theorem c7_amended_witness :
    (parse_llm_response (canonicalToolText "weather".data "get".data)).tool_call =
      some ⟨(if "weather".data = "functions".data then "get".data
              else "weather".data ++ '.' :: "get".data),
        Json.jobj [("a".data, Json.jint 1)]⟩ :=
  c7_amended_namespace_stripping "weather".data "get".data (by decide) (by decide)
    (by decide)
